import Mathlib

/-!
Verification development for the receipt-tracker repository.

The Source Watcher (`src/poller/poller.js`, Google Apps Script) is embedded
shallowly: script properties become an explicit `ScriptProps` record, the
Drive query result becomes a list of `DriveFile` values filtered by the
query predicate, and the HTTP endpoint becomes an oracle
`resp : String → Nat → Option Nat` giving, for a file id and an attempt
number, the HTTP status code of that attempt (`none` = network error /
thrown exception).  Property writes and the thrown configuration error are
made explicit with `Except`.

The Validator/Reconciler and the Sheets (Ledger) Writer are Python cloud
functions whose source is not part of the repository snapshot (only their
deploy scripts and the README describing them are); they are modelled from
the specification text, as marked on each definition.
-/

namespace ReceiptTracker

/-! ## Source Watcher: data model (src/poller/poller.js) -/

/-- A Drive file as seen by the poller's `Drive.Files.list` call:
`fields: "files(id,name,mimeType,createdTime)"` plus the attributes the
query predicate reads (`parents`, `trashed`).  `createdTime` (an RFC3339
UTC string in the source, compared lexicographically by Drive) is embedded
as milliseconds since epoch, which the string comparison agrees with. -/
structure DriveFile where
  id : String
  name : String
  mimeType : String
  createdTimeMs : Int
  parents : List String
  trashed : Bool
deriving DecidableEq, Repr

/-- The script-property store (`PropertiesService.getScriptProperties()`).
`getProperty` returning `null` is `none`.  `LOOKBACK_MINUTES` is stored as
a string and `parseInt`-ed by the source; it is embedded as the parsed
numeric value.  `LAST_RUN_ISO` (an ISO timestamp string) is embedded as
milliseconds.  `SEEN_IDS_JSON` is a JSON array of file-id strings; absent
means `[]` (`|| '[]'` in the source). -/
structure ScriptProps where
  folderId : Option String
  ingressUrl : Option String
  apiKey : Option String
  lookbackMinutes : Option Int
  lastRunMs : Option Int
  seenIdsJson : List String
deriving DecidableEq, Repr

/-- The configuration record returned by `loadConfig`. -/
structure PollConfig where
  folderId : String
  endpoint : String
  apiKey : String
  lookbackMinutes : Int
deriving DecidableEq, Repr

/-- JavaScript truthiness of an optional string property: `null` and the
empty string are falsy (`!folderId` in the source). -/
def truthyStr : Option String → Option String
  | none => none
  | some s => if s = "" then none else some s

/-- The message of the error thrown by `loadConfig`. -/
def missingPropsMsg : String :=
  "Missing required Script Properties: FOLDER_ID, INGRESS_URL, API_KEY"

/-- `loadConfig` from poller.js: reads the four properties, throws when any
of `FOLDER_ID`, `INGRESS_URL`, `API_KEY` is falsy, defaults the lookback to
5 minutes (`parseInt(... || '5', 10)`). -/
def loadConfig (p : ScriptProps) : Except String PollConfig :=
  match truthyStr p.folderId, truthyStr p.ingressUrl, truthyStr p.apiKey with
  | some f, some e, some k =>
      .ok { folderId := f, endpoint := e, apiKey := k,
            lookbackMinutes := p.lookbackMinutes.getD 5 }
  | _, _, _ => .error missingPropsMsg

/-- `computeSinceIso` from poller.js: returns `now − lookbackMinutes` in
minutes (the source computes `now.getTime() - lookbackMinutes * 60 * 1000`)
and, as a side effect, stores `LAST_RUN_ISO := now`. -/
def computeSinceIso (nowMs : Int) (lookbackMinutes : Int) (p : ScriptProps) :
    Int × ScriptProps :=
  (nowMs - lookbackMinutes * 60 * 1000, { p with lastRunMs := some nowMs })

/-- `arr.slice(-500)` on a list: keep the last 500 elements (all of them
when there are at most 500). -/
def sliceLast500 (l : List String) : List String :=
  l.drop (l.length - 500)

/-- First-occurrence deduplication, the semantics of JavaScript
`new Set(arr)` iterated in insertion order: the head is kept and every
later occurrence of it is dropped. -/
def dedupFirst {α : Type} [DecidableEq α] : List α → List α
  | [] => []
  | a :: l => a :: (dedupFirst l).filter (fun b => b ≠ a)

/-- `loadSeenIds` from poller.js: parse `SEEN_IDS_JSON`, keep only the most
recent 500 ids (`arr.slice(-500)`), and put them in a `Set`. -/
def loadSeenIds (stored : List String) : List String :=
  dedupFirst (sliceLast500 stored)

/-- `persistSeenIds` from poller.js: `Array.from(seenSet).slice(-500)`,
stored back into `SEEN_IDS_JSON`. -/
def persistSeenIds (seenArr : List String) : List String :=
  sliceLast500 seenArr

/-- `code >= 200 && code < 300` on an attempt's outcome; `none` (network
error / exception) is not a success. -/
def is2xx : Option Nat → Bool
  | some code => decide (200 ≤ code) && decide (code < 300)
  | none => false

/-- The retry loop of `postToIngress` (`for i = 1..attempts`): attempt `i`,
return `true` immediately on a 2xx response, otherwise sleep `500 * i`
milliseconds and continue.  Returns (result, number of attempts made, the
sleep delays performed, in order).  `fuel` is the number of attempts left. -/
def postGo (resp : Nat → Option Nat) : Nat → Nat → Bool × Nat × List Nat
  | _, 0 => (false, 0, [])
  | i, fuel + 1 =>
    if is2xx (resp i) then (true, 1, [])
    else
      let r := postGo resp (i + 1) fuel
      (r.1, r.2.1 + 1, 500 * i :: r.2.2)

/-- `postToIngress` from poller.js: `const attempts = 3`, starting at
attempt `i = 1`. -/
def postToIngress (resp : Nat → Option Nat) : Bool × Nat × List Nat :=
  postGo resp 1 3

/-- The per-scan trace of the `forEach` body of `pollFolder`: the seen set
after the scan (before persisting), the ids for which `postToIngress` was
called, and the ids whose post succeeded (exactly those added to the seen
set, `if (ok) seen.add(f.id)`). -/
structure ScanTrace where
  seenAfter : List String
  attempted : List String
  posted : List String
deriving DecidableEq, Repr

/-- The `forEach` body of `pollFolder` over the files returned by the
query: skip a file whose id is in the seen set, otherwise post it and add
its id to the seen set only when the post reports success. -/
def processFiles (resp : String → Nat → Option Nat) :
    List DriveFile → List String → ScanTrace
  | [], seen => ⟨seen, [], []⟩
  | f :: rest, seen =>
    if seen.contains f.id then processFiles resp rest seen
    else if (postToIngress (resp f.id)).1 then
      let t := processFiles resp rest (seen ++ [f.id])
      ⟨t.seenAfter, f.id :: t.attempted, f.id :: t.posted⟩
    else
      let t := processFiles resp rest seen
      ⟨t.seenAfter, f.id :: t.attempted, t.posted⟩

/-- The Drive query of `pollFolder`:
`'folderId' in parents and trashed = false and createdTime >= sinceIso`. -/
def matchesQuery (folderId : String) (sinceMs : Int) (f : DriveFile) : Bool :=
  decide (folderId ∈ f.parents) && !f.trashed && decide (sinceMs ≤ f.createdTimeMs)

/-- The externally visible result of a successful `pollFolder` invocation:
the script properties after the run, the files returned by the Drive query
(all pages), the ids posted to the Ingress endpoint (attempted), the ids
posted successfully, and the raw seen set before the persist trim. -/
structure PollOutcome where
  props : ScriptProps
  queried : List DriveFile
  attempted : List String
  posted : List String
  seenRaw : List String
deriving DecidableEq, Repr

/-- `pollFolder` from poller.js: load the configuration (throwing when it
is incomplete), compute the window lower bound (writing `LAST_RUN_ISO`),
load the seen-id cache, iterate over the files matching the query, and
persist the seen-id cache.  Pagination is folded into the single list of
matching files. -/
def pollFolder (nowMs : Int) (allFiles : List DriveFile)
    (resp : String → Nat → Option Nat) (p : ScriptProps) :
    Except String PollOutcome :=
  match loadConfig p with
  | .error e => .error e
  | .ok cfg =>
    let sp := computeSinceIso nowMs cfg.lookbackMinutes p
    let seen0 := loadSeenIds sp.2.seenIdsJson
    let visible := allFiles.filter (matchesQuery cfg.folderId sp.1)
    let t := processFiles resp visible seen0
    .ok { props := { sp.2 with seenIdsJson := persistSeenIds t.seenAfter },
          queried := visible,
          attempted := t.attempted,
          posted := t.posted,
          seenRaw := t.seenAfter }

/-- One invocation of the time-driven trigger: the wall-clock time, the
files currently in the folder, and the HTTP oracle for this invocation. -/
structure ScanInput where
  nowMs : Int
  files : List DriveFile
  resp : String → Nat → Option Nat

/-- A sequence of trigger invocations.  A throwing invocation leaves the
property store untouched and posts nothing.  Returns the final property
store and the concatenation of all successfully posted ids. -/
def runPolls : List ScanInput → ScriptProps → ScriptProps × List String
  | [], p => (p, [])
  | s :: rest, p =>
    match pollFolder s.nowMs s.files s.resp p with
    | .error _ => runPolls rest p
    | .ok r =>
      let q := runPolls rest r.props
      (q.1, r.posted ++ q.2)

/-- The bounded-cache side condition of the overlap-scan scenario: at every
invocation the raw seen set stays within the 500-entry capacity, so the
persist trim never evicts an id during the run. -/
def runBounded : List ScanInput → ScriptProps → Bool
  | [], _ => true
  | s :: rest, p =>
    match pollFolder s.nowMs s.files s.resp p with
    | .error _ => runBounded rest p
    | .ok r => decide (r.seenRaw.length ≤ 500) && runBounded rest r.props

/-! ## Ledger Writer and Validator/Reconciler

The Python sources of the Sheets (Ledger) Writer and of the
Validator/Reconciler are not part of the repository snapshot; only their
deploy scripts and the README describing them are.  They are modelled from
the specification text (spec §4.5, §4.6) and from the README's `MONTH
TOTAL` footer formula. -/

/-- A row's status. The sheet stores the string `"NEEDS REVIEW"` for
review rows; everything else is an OK row. -/
inductive RowStatus where
  | ok
  | needsReview
deriving DecidableEq, Repr

/-- A ledger row projected onto the columns the claims read: column `M`
(`image_hash`), column `I` (`total`, one shared value repeated on every
row of a receipt), column `N` (`status`).  Money is embedded as `ℚ`. -/
structure LedgerRow where
  image_hash : String
  total : ℚ
  status : RowStatus
deriving DecidableEq, Repr

/-- Modelled from the spec: a Validation Outcome as the Ledger Writer
receives it — the shared content identity, the receipt's reported total,
the status, and the number of line items (spec §4.5 step 5: "one ledger
row per line item (repeating shared header fields), each row carrying the
shared content identity"). -/
structure WriterOutcome where
  image_hash : String
  total : ℚ
  status : RowStatus
  nItems : Nat
deriving DecidableEq, Repr

/-- Modelled from the spec: the rows rendered for one Validation Outcome,
one per line item, all carrying the shared content identity, total and
status. -/
def renderedRows (o : WriterOutcome) : List LedgerRow :=
  List.replicate o.nItems ⟨o.image_hash, o.total, o.status⟩

/-- A monthly ledger: the appended rows plus the synthetic `MONTH TOTAL`
aggregate row (its value in the `total` column). -/
structure Ledger where
  rows : List LedgerRow
  aggregate : ℚ
deriving DecidableEq, Repr

/-- Whether some row bearing the given content identity already exists in
the ledger. -/
def hashPresent (rows : List LedgerRow) (h : String) : Bool :=
  rows.any (fun r => decide (r.image_hash = h))

/-- The README's `MONTH TOTAL` footer formula
(`SUM(QUERY(UNIQUE(FILTER({M2:M, I2:I}, N2:N<>"NEEDS REVIEW")), "select
sum(Col2) where Col1 <> ''", 0))`): keep the `(image_hash, total)` pairs of
the non-review rows, deduplicate them (first occurrence, as `UNIQUE`
does), drop pairs with an empty hash, and sum the totals. -/
def footerFormula (rows : List LedgerRow) : ℚ :=
  let pairs := (rows.filter
      (fun r => !decide (r.status = RowStatus.needsReview))).map
      (fun r => (r.image_hash, r.total))
  (((dedupFirst pairs).filter (fun q => !decide (q.1 = ""))).map Prod.snd).sum

/-- Modelled from the spec: the Ledger Writer applied to one Validation
Outcome (spec §4.6): "append only if no row bearing this content identity
already exists in that ledger", and "after every successful append,
recompute the aggregate row ...; overwrite (not increment) the existing
aggregate row". -/
def writeOutcome (o : WriterOutcome) (L : Ledger) : Ledger :=
  if hashPresent L.rows o.image_hash then L
  else
    let rows := L.rows ++ renderedRows o
    { rows := rows, aggregate := footerFormula rows }

/-- A freshly created monthly ledger: header only, no data rows, aggregate
row holding 0 (the formula's `IFERROR(..., 0)` on an empty range). -/
def emptyLedger : Ledger :=
  { rows := [], aggregate := 0 }

/-- Delivering a sequence of Validation Outcomes to the Ledger Writer of
one monthly ledger, starting from a freshly created ledger. -/
def applyOutcomes (os : List WriterOutcome) : Ledger :=
  os.foldl (fun L o => writeOutcome o L) emptyLedger

/-- The aggregate as the specification states it: the sum of `total` over
the distinct content identities present in the ledger with status OK (each
distinct identity contributing the total of its row). -/
def distinctOkAggregate (rows : List LedgerRow) : ℚ :=
  let okRows := rows.filter (fun r => decide (r.status = RowStatus.ok))
  ((dedupFirst (okRows.map (fun r => r.image_hash))).map
      (fun h =>
        ((okRows.find? (fun r => decide (r.image_hash = h))).map
          (fun r => r.total)).getD 0)).sum

/-! ## Block normal form of reachable ledgers -/

/-- The rows of a ledger reached by a sequence of committed outcomes: one
block of identical rows per committed outcome, in commit order. -/
def blocksRows (bs : List WriterOutcome) : List LedgerRow :=
  (bs.map renderedRows).flatten

/-- The aggregate a list of committed outcomes produces: each OK outcome
contributes its total exactly once. -/
def blocksSum (bs : List WriterOutcome) : ℚ :=
  (bs.map (fun b => if b.status = RowStatus.ok then b.total else 0)).sum

/-- Well-formedness of the committed blocks of a reachable ledger: content
identities pairwise distinct and nonempty, and every block has at least
one row. -/
def GoodBlocks (bs : List WriterOutcome) : Prop :=
  (bs.map (fun b => b.image_hash)).Nodup
  ∧ ∀ b ∈ bs, 1 ≤ b.nItems ∧ b.image_hash ≠ ""

/-- Example outcome sequence with a duplicate delivery of `h1` and a
review-flagged receipt `h2`. -/
def exOutcomes : List WriterOutcome :=
  [⟨"h1", 23, RowStatus.ok, 2⟩, ⟨"h1", 23, RowStatus.ok, 2⟩,
   ⟨"h2", 7, RowStatus.needsReview, 1⟩]

/-! ## Validator/Reconciler reconciliation step -/

/-- A parsed line item of a Structured Record. -/
structure RawItem where
  description : String
  quantity : ℚ
  unit_price : ℚ
  line_total : ℚ
deriving DecidableEq, Repr

/-- A Structured Record as the Validator receives it (fields the
reconciliation step reads). -/
structure RawRecord where
  vendor : String
  purchase_date : String
  total : ℚ
  items : List RawItem
  image_hash : String
deriving DecidableEq, Repr

/-- `sum(line_total over items)` of a record. -/
def sumLineTotals (r : RawRecord) : ℚ :=
  (r.items.map (fun it => it.line_total)).sum

/-- The README's note text for a reconciliation mismatch. -/
def mismatchNote : String := "sum(items)!=total"

/-- The reconciliation outcome: status, notes, and the rendered rows. -/
structure ReconcileResult where
  status : RowStatus
  notes : List String
  rows : List LedgerRow
deriving DecidableEq, Repr

/-- Modelled from the spec: the reconciliation step of the
Validator/Reconciler (spec §4.5 step 3) on a schema-valid record — compare
`sum(line_total over items)` against the reported `total` within the
absolute tolerance `eps` (`TOTALS_EPSILON`); a mismatch beyond the
tolerance adds a note and forces status NEEDS_REVIEW but does not block
the write: the rows are rendered either way, one per line item. -/
def reconcile (eps : ℚ) (r : RawRecord) : ReconcileResult :=
  let within := |sumLineTotals r - r.total| ≤ eps
  let st := if within then RowStatus.ok else RowStatus.needsReview
  { status := st,
    notes := if within then [] else [mismatchNote],
    rows := r.items.map (fun _ => ⟨r.image_hash, r.total, st⟩) }

/-! ## Concrete example values used by witnesses and counterexamples -/

/-- An example Drive file sitting in folder `folder1`. -/
def exFile : DriveFile :=
  { id := "f1", name := "scan.pdf", mimeType := "application/pdf",
    createdTimeMs := 100, parents := ["folder1"], trashed := false }

/-- A fully configured property store with an empty seen cache. -/
def exProps : ScriptProps :=
  { folderId := some "folder1", ingressUrl := some "https://ingress.example",
    apiKey := some "key", lookbackMinutes := some 5, lastRunMs := none,
    seenIdsJson := [] }

/-- The configuration `loadConfig` extracts from `exProps`. -/
def exCfg : PollConfig :=
  { folderId := "folder1", endpoint := "https://ingress.example",
    apiKey := "key", lookbackMinutes := 5 }

/-- A property store missing the required `API_KEY`. -/
def exPropsNoKey : ScriptProps :=
  { folderId := some "folder1", ingressUrl := some "https://ingress.example",
    apiKey := none, lookbackMinutes := some 5, lastRunMs := none,
    seenIdsJson := [] }

/-- An HTTP oracle on which every attempt is a network error. -/
def exRespFail : String → Nat → Option Nat := fun _ _ => none

/-- An HTTP oracle on which every attempt returns 204. -/
def exRespOk : String → Nat → Option Nat := fun _ _ => some 204

/-- The outcome of polling `[exFile]` at time 100 from `exProps` when every
post attempt fails. -/
def exOutcomeFail : PollOutcome :=
  { props := { exProps with lastRunMs := some 100 }, queried := [exFile],
    attempted := ["f1"], posted := [], seenRaw := [] }

/-- The outcome of polling `[exFile]` at time 200 from
`exOutcomeFail.props` when the post succeeds. -/
def exOutcomeRetry : PollOutcome :=
  { props := { exProps with lastRunMs := some 200, seenIdsJson := ["f1"] },
    queried := [exFile], attempted := ["f1"], posted := ["f1"],
    seenRaw := ["f1"] }

/-- A property store whose seen cache already holds the id `g`. -/
def exPropsSeen : ScriptProps := { exProps with seenIdsJson := ["g"] }

/-- Six-scans-compressed-to-three example run: a failed forward, then two
scans on which the post would succeed. -/
def exScans : List ScanInput :=
  [⟨100, [exFile], exRespFail⟩, ⟨200, [exFile], exRespOk⟩,
   ⟨300, [exFile], exRespOk⟩]

/-- A concrete record whose line totals (1) are far from its reported
total (10). -/
def exRecord : RawRecord :=
  { vendor := "7-Eleven", purchase_date := "2025-09-10", total := 10,
    items := [⟨"Milk 1L", 1, 1, 1⟩], image_hash := "sha256:aa" }

/-! ## Helper lemmas on the poller embedding -/

theorem dedupFirst_cons {α : Type} [DecidableEq α] (a : α) (l : List α) :
    dedupFirst (a :: l) = a :: (dedupFirst l).filter (fun b => b ≠ a) := rfl

theorem mem_dedupFirst {α : Type} [DecidableEq α] (x : α) (l : List α) :
    x ∈ dedupFirst l ↔ x ∈ l := by
  induction l with
  | nil => simp [dedupFirst]
  | cons a l ih =>
    rw [dedupFirst_cons]
    by_cases hxa : x = a
    · subst hxa; simp
    · simp [hxa, ih, List.mem_filter]

theorem dedupFirst_length_le {α : Type} [DecidableEq α] (l : List α) :
    (dedupFirst l).length ≤ l.length := by
  induction l with
  | nil => simp [dedupFirst]
  | cons a l ih =>
    rw [dedupFirst_cons]
    have h := List.length_filter_le (fun b => decide (b ≠ a)) (dedupFirst l)
    simpa using Nat.add_le_add_right (le_trans h ih) 1

theorem sliceLast500_of_le {l : List String} (h : l.length ≤ 500) :
    sliceLast500 l = l := by
  unfold sliceLast500
  have hz : l.length - 500 = 0 := by omega
  rw [hz, List.drop_zero]

theorem sliceLast500_length_le (l : List String) :
    (sliceLast500 l).length ≤ 500 := by
  unfold sliceLast500
  rw [List.length_drop]
  omega

theorem mem_of_mem_sliceLast500 {x : String} {l : List String}
    (h : x ∈ sliceLast500 l) : x ∈ l :=
  List.mem_of_mem_drop h

theorem loadSeenIds_length_le (l : List String) :
    (loadSeenIds l).length ≤ 500 :=
  le_trans (dedupFirst_length_le _) (sliceLast500_length_le l)

theorem mem_of_mem_loadSeenIds {x : String} {l : List String}
    (h : x ∈ loadSeenIds l) : x ∈ l :=
  mem_of_mem_sliceLast500 ((mem_dedupFirst x _).mp h)

theorem mem_loadSeenIds_of_le {x : String} {l : List String}
    (h : l.length ≤ 500) : x ∈ loadSeenIds l ↔ x ∈ l := by
  unfold loadSeenIds
  rw [sliceLast500_of_le h, mem_dedupFirst]

theorem persistSeenIds_of_le {l : List String} (h : l.length ≤ 500) :
    persistSeenIds l = l :=
  sliceLast500_of_le h

theorem processFiles_cons_seen (resp : String → Nat → Option Nat)
    {f : DriveFile} (rest : List DriveFile) {seen : List String}
    (h : f.id ∈ seen) :
    processFiles resp (f :: rest) seen = processFiles resp rest seen := by
  simp [processFiles, h]

theorem processFiles_cons_post (resp : String → Nat → Option Nat)
    {f : DriveFile} (rest : List DriveFile) {seen : List String}
    (h1 : f.id ∉ seen) (h2 : (postToIngress (resp f.id)).1 = true) :
    processFiles resp (f :: rest) seen =
      { seenAfter := (processFiles resp rest (seen ++ [f.id])).seenAfter,
        attempted := f.id :: (processFiles resp rest (seen ++ [f.id])).attempted,
        posted := f.id :: (processFiles resp rest (seen ++ [f.id])).posted } := by
  simp [processFiles, h1, h2]

theorem processFiles_cons_fail (resp : String → Nat → Option Nat)
    {f : DriveFile} (rest : List DriveFile) {seen : List String}
    (h1 : f.id ∉ seen) (h2 : ¬ (postToIngress (resp f.id)).1 = true) :
    processFiles resp (f :: rest) seen =
      { seenAfter := (processFiles resp rest seen).seenAfter,
        attempted := f.id :: (processFiles resp rest seen).attempted,
        posted := (processFiles resp rest seen).posted } := by
  simp [processFiles, h1, h2]

theorem processFiles_seenAfter (resp : String → Nat → Option Nat)
    (files : List DriveFile) : ∀ seen : List String,
    (processFiles resp files seen).seenAfter =
      seen ++ (processFiles resp files seen).posted := by
  induction files with
  | nil => intro seen; simp [processFiles]
  | cons f rest ih =>
    intro seen
    by_cases h1 : f.id ∈ seen
    · rw [processFiles_cons_seen resp rest h1]
      exact ih seen
    · by_cases h2 : (postToIngress (resp f.id)).1 = true
      · rw [processFiles_cons_post resp rest h1 h2]
        simp [ih (seen ++ [f.id])]
      · rw [processFiles_cons_fail resp rest h1 h2]
        exact ih seen

theorem processFiles_not_attempted_of_seen (resp : String → Nat → Option Nat)
    (files : List DriveFile) : ∀ {seen : List String} {x : String}, x ∈ seen →
    x ∉ (processFiles resp files seen).attempted := by
  induction files with
  | nil => intro seen x hx; simp [processFiles]
  | cons f rest ih =>
    intro seen x hx
    by_cases h1 : f.id ∈ seen
    · rw [processFiles_cons_seen resp rest h1]
      exact ih hx
    · have hne : x ≠ f.id := fun he => h1 (he ▸ hx)
      by_cases h2 : (postToIngress (resp f.id)).1 = true
      · rw [processFiles_cons_post resp rest h1 h2]
        simp only [List.mem_cons, not_or]
        exact ⟨hne, ih (by simp [hx])⟩
      · rw [processFiles_cons_fail resp rest h1 h2]
        simp only [List.mem_cons, not_or]
        exact ⟨hne, ih hx⟩

theorem processFiles_posted_sub_attempted (resp : String → Nat → Option Nat)
    (files : List DriveFile) : ∀ {seen : List String} {x : String},
    x ∈ (processFiles resp files seen).posted →
    x ∈ (processFiles resp files seen).attempted := by
  induction files with
  | nil => intro seen x hx; simp [processFiles] at hx
  | cons f rest ih =>
    intro seen x
    by_cases h1 : f.id ∈ seen
    · rw [processFiles_cons_seen resp rest h1]
      exact ih
    · by_cases h2 : (postToIngress (resp f.id)).1 = true
      · rw [processFiles_cons_post resp rest h1 h2]
        simp only [List.mem_cons]
        rintro (hx | hx)
        · exact Or.inl hx
        · exact Or.inr (ih hx)
      · rw [processFiles_cons_fail resp rest h1 h2]
        simp only [List.mem_cons]
        intro hx
        exact Or.inr (ih hx)

theorem processFiles_posted_count_zero (resp : String → Nat → Option Nat)
    (files : List DriveFile) {seen : List String} {x : String} (hx : x ∈ seen) :
    (processFiles resp files seen).posted.count x = 0 := by
  apply List.count_eq_zero_of_not_mem
  intro hmem
  exact processFiles_not_attempted_of_seen resp files hx
    (processFiles_posted_sub_attempted resp files hmem)

theorem processFiles_posted_count_le_one (resp : String → Nat → Option Nat)
    (files : List DriveFile) : ∀ (seen : List String) (x : String),
    (processFiles resp files seen).posted.count x ≤ 1 := by
  induction files with
  | nil => intro seen x; simp [processFiles]
  | cons f rest ih =>
    intro seen x
    by_cases h1 : f.id ∈ seen
    · rw [processFiles_cons_seen resp rest h1]
      exact ih seen x
    · by_cases h2 : (postToIngress (resp f.id)).1 = true
      · rw [processFiles_cons_post resp rest h1 h2]
        by_cases hx : f.id = x
        · subst hx
          have hz : (processFiles resp rest (seen ++ [f.id])).posted.count f.id = 0 :=
            processFiles_posted_count_zero resp rest (by simp)
          simp [List.count_cons, hz]
        · simpa [List.count_cons, hx] using ih (seen ++ [f.id]) x
      · rw [processFiles_cons_fail resp rest h1 h2]
        exact ih seen x

theorem processFiles_posted_success (resp : String → Nat → Option Nat)
    (files : List DriveFile) : ∀ {seen : List String} {x : String},
    x ∈ (processFiles resp files seen).posted →
    (postToIngress (resp x)).1 = true := by
  induction files with
  | nil => intro seen x hx; simp [processFiles] at hx
  | cons f rest ih =>
    intro seen x
    by_cases h1 : f.id ∈ seen
    · rw [processFiles_cons_seen resp rest h1]
      exact ih
    · by_cases h2 : (postToIngress (resp f.id)).1 = true
      · rw [processFiles_cons_post resp rest h1 h2]
        simp only [List.mem_cons]
        rintro (hx | hx)
        · subst hx; exact h2
        · exact ih hx
      · rw [processFiles_cons_fail resp rest h1 h2]
        exact ih

theorem processFiles_attempts_file (resp : String → Nat → Option Nat)
    (files : List DriveFile) : ∀ {seen : List String} {f : DriveFile},
    f ∈ files → f.id ∉ seen →
    f.id ∈ (processFiles resp files seen).attempted := by
  induction files with
  | nil => intro seen f hf; simp at hf
  | cons g rest ih =>
    intro seen f hf hs
    rcases List.mem_cons.mp hf with hfg | hfr
    · subst hfg
      by_cases h2 : (postToIngress (resp f.id)).1 = true
      · rw [processFiles_cons_post resp rest hs h2]
        simp
      · rw [processFiles_cons_fail resp rest hs h2]
        simp
    · by_cases h1 : g.id ∈ seen
      · rw [processFiles_cons_seen resp rest h1]
        exact ih hfr hs
      · by_cases h2 : (postToIngress (resp g.id)).1 = true
        · rw [processFiles_cons_post resp rest h1 h2]
          simp only [List.mem_cons]
          by_cases hid : f.id = g.id
          · exact Or.inl hid
          · exact Or.inr (ih hfr (by simp [hs, hid]))
        · rw [processFiles_cons_fail resp rest h1 h2]
          simp only [List.mem_cons]
          exact Or.inr (ih hfr hs)

theorem postGo_true_exists (resp : Nat → Option Nat) :
    ∀ (fuel i : Nat), (postGo resp i fuel).1 = true →
      ∃ j, is2xx (resp j) = true := by
  intro fuel
  induction fuel with
  | zero => intro i h; simp [postGo] at h
  | succ n ih =>
    intro i h
    by_cases h1 : is2xx (resp i)
    · exact ⟨i, h1⟩
    · rw [postGo] at h
      simp only [h1, if_false] at h
      exact ih (i + 1) h

theorem postToIngress_true_exists {resp : Nat → Option Nat}
    (h : (postToIngress resp).1 = true) : ∃ j, is2xx (resp j) = true :=
  postGo_true_exists resp 3 1 h

/-- Unfolding equation for a configured `pollFolder` invocation. -/
theorem pollFolder_ok_eq (nowMs : Int) (allFiles : List DriveFile)
    (resp : String → Nat → Option Nat) (p : ScriptProps) (cfg : PollConfig)
    (hcfg : loadConfig p = .ok cfg) :
    pollFolder nowMs allFiles resp p =
      (let visible := allFiles.filter
          (matchesQuery cfg.folderId (nowMs - cfg.lookbackMinutes * 60 * 1000))
       let t := processFiles resp visible (loadSeenIds p.seenIdsJson)
       Except.ok
        { props := { p with lastRunMs := some nowMs,
                            seenIdsJson := persistSeenIds t.seenAfter },
          queried := visible,
          attempted := t.attempted,
          posted := t.posted,
          seenRaw := t.seenAfter }) := by
  unfold pollFolder
  rw [hcfg]
  rfl

/-! ## Claim theorems: Source Watcher -/

theorem loadConfig_missing (p : ScriptProps)
    (h : p.folderId = none ∨ p.ingressUrl = none ∨ p.apiKey = none) :
    loadConfig p = .error missingPropsMsg := by
  unfold loadConfig
  rcases h with h | h | h
  · rw [h]; rfl
  · cases htf : truthyStr p.folderId with
    | none => rfl
    | some f => rw [h]; rfl
  · cases htf : truthyStr p.folderId with
    | none => rfl
    | some f =>
      cases hti : truthyStr p.ingressUrl with
      | none => rfl
      | some e => rw [h]; rfl

/-- C10: if any of the required script properties `FOLDER_ID`,
`INGRESS_URL`, `API_KEY` is absent, `loadConfig` throws before the Source
Watcher performs any scan, forward, or cache write: `pollFolder` returns
the configuration error, producing no `PollOutcome` — no Drive query, no
post, and no property write happen on a misconfigured invocation. -/
theorem c10_missing_config_no_effect (nowMs : Int) (files : List DriveFile)
    (resp : String → Nat → Option Nat) (p : ScriptProps)
    (h : p.folderId = none ∨ p.ingressUrl = none ∨ p.apiKey = none) :
    pollFolder nowMs files resp p = .error missingPropsMsg := by
  unfold pollFolder
  rw [loadConfig_missing p h]

/-- Witness for C10 at a concrete misconfigured property store. -/
theorem c10_missing_config_no_effect_witness :
    pollFolder 100 [exFile] exRespFail exPropsNoKey = .error missingPropsMsg :=
  c10_missing_config_no_effect 100 [exFile] exRespFail exPropsNoKey
    (Or.inr (Or.inr rfl))

/-- C7: on each configured invocation, the lower bound returned by
`computeSinceIso` is the invocation time minus `lookbackMinutes` minutes,
and the files the scan considers are exactly the non-trashed items of the
configured folder whose creation time is at or after that bound. -/
theorem c7_scan_window (nowMs : Int) (files : List DriveFile)
    (resp : String → Nat → Option Nat) (p : ScriptProps) (cfg : PollConfig)
    (r : PollOutcome)
    (hcfg : loadConfig p = .ok cfg)
    (hok : pollFolder nowMs files resp p = .ok r) :
    (computeSinceIso nowMs cfg.lookbackMinutes p).1
        = nowMs - cfg.lookbackMinutes * 60 * 1000
    ∧ r.queried = files.filter (fun f =>
        decide (cfg.folderId ∈ f.parents) && !f.trashed
          && decide (nowMs - cfg.lookbackMinutes * 60 * 1000 ≤ f.createdTimeMs)) := by
  refine ⟨rfl, ?_⟩
  rw [pollFolder_ok_eq nowMs files resp p cfg hcfg] at hok
  injection hok with h
  rw [← h]
  rfl

/-- Witness for C7 at a concrete configured invocation. -/
theorem c7_scan_window_witness :
    (computeSinceIso 100 exCfg.lookbackMinutes exProps).1
        = 100 - exCfg.lookbackMinutes * 60 * 1000
    ∧ exOutcomeFail.queried = [exFile].filter (fun f =>
        decide (exCfg.folderId ∈ f.parents) && !f.trashed
          && decide (100 - exCfg.lookbackMinutes * 60 * 1000 ≤ f.createdTimeMs)) :=
  c7_scan_window 100 [exFile] exRespFail exProps exCfg exOutcomeFail rfl rfl

/-- C8 counterexample: the watermark is not written on every invocation —
on a misconfigured invocation `loadConfig` throws first, so the run ends
in the configuration error and `LAST_RUN_ISO` (still unset here) is never
written. -/
theorem c8_watermark_counterexample :
    pollFolder 100 [exFile] exRespFail exPropsNoKey = .error missingPropsMsg
    ∧ exPropsNoKey.lastRunMs = none := by
  constructor
  · unfold pollFolder
    rw [loadConfig_missing exPropsNoKey (Or.inr (Or.inr rfl))]
  · rfl

/-- C8 (amended): the persisted watermark `LAST_RUN_ISO` is written on
every invocation that passes configuration loading, and it is never read:
the whole invocation — scan query, forwarding decisions, and the seen-ID
cache — is independent of the stored watermark value, so changing or
removing it leaves the result (including which items are forwarded)
unchanged. -/
theorem c8_watermark_diagnostic (nowMs : Int) (files : List DriveFile)
    (resp : String → Nat → Option Nat) (p : ScriptProps) (v : Option Int) :
    pollFolder nowMs files resp { p with lastRunMs := v }
      = pollFolder nowMs files resp p
    ∧ (∀ r : PollOutcome, pollFolder nowMs files resp p = .ok r →
        r.props.lastRunMs = some nowMs) := by
  constructor
  · cases p
    rfl
  · intro r hok
    cases hcfg : loadConfig p with
    | error e =>
      unfold pollFolder at hok
      rw [hcfg] at hok
      exact absurd hok (by simp)
    | ok cfg =>
      rw [pollFolder_ok_eq nowMs files resp p cfg hcfg] at hok
      injection hok with h
      rw [← h]

/-- Witness for C8 (amended) at a concrete configured invocation. -/
theorem c8_watermark_diagnostic_witness :
    exOutcomeFail.props.lastRunMs = some 100 :=
  (c8_watermark_diagnostic 100 [exFile] exRespFail exProps none).2
    exOutcomeFail rfl

/-! ## Claim theorems: postToIngress retry loop -/

/-- Case analysis of the three-attempt retry loop of `postToIngress`. -/
theorem postToIngress_cases (resp : Nat → Option Nat) :
    postToIngress resp =
      if is2xx (resp 1) then (true, 1, ([] : List Nat))
      else if is2xx (resp 2) then (true, 2, [500])
      else if is2xx (resp 3) then (true, 3, [500, 1000])
      else (false, 3, [500, 1000, 1500]) := by
  have step3 : postGo resp 1 3 =
      if is2xx (resp 1) then (true, 1, ([] : List Nat))
      else ((postGo resp 2 2).1, (postGo resp 2 2).2.1 + 1,
        500 :: (postGo resp 2 2).2.2) := rfl
  have step2 : postGo resp 2 2 =
      if is2xx (resp 2) then (true, 1, ([] : List Nat))
      else ((postGo resp 3 1).1, (postGo resp 3 1).2.1 + 1,
        1000 :: (postGo resp 3 1).2.2) := rfl
  have step1 : postGo resp 3 1 =
      if is2xx (resp 3) then (true, 1, ([] : List Nat))
      else (false, 1, [1500]) := rfl
  unfold postToIngress
  rw [step3, step2, step1]
  cases hb1 : is2xx (resp 1) <;> cases hb2 : is2xx (resp 2) <;>
    cases hb3 : is2xx (resp 3) <;> simp

/-- C5 counterexample: the sleep schedule of a run on which all three
attempts fail is `[500, 1000, 1500]` — it grows linearly (`500 * i` in the
source), not exponentially: it is not a geometric progression
`[a, a·r, a·r²]` for any `a`, `r`. -/
theorem c5_backoff_counterexample :
    ¬ ∃ a r : Nat,
      (postToIngress (fun _ => none)).2.2 = [a, a * r, a * r * r] := by
  rintro ⟨a, r, h⟩
  have he : (postToIngress (fun _ => none)).2.2 = [500, 1000, 1500] := rfl
  rw [he] at h
  obtain ⟨h1, h2, h3⟩ : 500 = a ∧ 1000 = a * r ∧ 1500 = a * r * r := by
    simpa using h
  subst h1
  have hr : r = 2 := by omega
  subst hr
  omega

/-- C5 (amended): `postToIngress` makes at most 3 attempts, sleeping after
each failed attempt with a backoff delay that grows linearly per attempt
(500 ms times the attempt number), returns `true` if and only if some of
the three attempts receives an HTTP response code in `[200, 300)`, and
returns `false` after all 3 attempts fail (having slept 500, 1000 and
1500 ms). -/
theorem c5_retry_contract (resp : Nat → Option Nat) :
    (postToIngress resp).2.1 ≤ 3
    ∧ ((postToIngress resp).1 = true ↔
        is2xx (resp 1) = true ∨ is2xx (resp 2) = true ∨ is2xx (resp 3) = true)
    ∧ ((postToIngress resp).1 = false →
        postToIngress resp = (false, 3, [500, 1000, 1500]))
    ∧ List.Chain' (· < ·) (postToIngress resp).2.2 := by
  rw [postToIngress_cases resp]
  cases hb1 : is2xx (resp 1) <;> cases hb2 : is2xx (resp 2) <;>
    cases hb3 : is2xx (resp 3) <;> simp

/-- Witness for C5 (amended): on the all-failures oracle the loop returns
`false` after three attempts with the linear sleep schedule. -/
theorem c5_retry_contract_witness :
    postToIngress (fun _ => none) = (false, 3, [500, 1000, 1500]) :=
  (c5_retry_contract (fun _ => none)).2.2.1 rfl

/-! ## Claim theorems: seen-ID cache bounds -/

/-- C6: the recent-items cache is bounded at capacity 500 with
oldest-first eviction: loading keeps only (a subset of) the most recent
500 stored identifiers, and persisting stores at most 500 identifiers
(`min length 500` of them), dropping the oldest — what is kept is a
suffix of the insertion-ordered cache. -/
theorem c6_cache_bound (stored seenArr : List String) :
    (loadSeenIds stored).length ≤ 500
    ∧ (∀ x ∈ loadSeenIds stored, x ∈ sliceLast500 stored)
    ∧ (persistSeenIds seenArr).length = min seenArr.length 500
    ∧ persistSeenIds seenArr <:+ seenArr := by
  refine ⟨loadSeenIds_length_le stored, ?_, ?_, List.drop_suffix _ _⟩
  · intro x hx
    exact (mem_dedupFirst x _).mp hx
  · unfold persistSeenIds sliceLast500
    rw [List.length_drop]
    omega

/-- Witness for C6 on concrete cache contents. -/
theorem c6_cache_bound_witness :
    (loadSeenIds ["a", "b", "a"]).length ≤ 500
    ∧ "a" ∈ sliceLast500 ["a", "b", "a"]
    ∧ (persistSeenIds ["a", "b", "a"]).length = min 3 500
    ∧ persistSeenIds ["a", "b", "a"] <:+ ["a", "b", "a"] := by
  obtain ⟨h1, h2, h3, h4⟩ := c6_cache_bound ["a", "b", "a"] ["a", "b", "a"]
  exact ⟨h1, h2 "a" (by decide), h3, h4⟩

/-- C4: an identifier enters the seen-ID cache only on a confirmed
successful hand-off — the persisted cache after a scan is exactly the
loaded cache extended by the successfully posted ids.  If every post
attempt for an item fails, it is left out of the cache, so a subsequent
overlapping scan in which the item is still visible attempts to forward
it again. -/
theorem c4_cache_only_on_success (now1 now2 : Int)
    (files1 files2 : List DriveFile)
    (resp1 resp2 : String → Nat → Option Nat) (p : ScriptProps)
    (r1 r2 : PollOutcome) (f : DriveFile)
    (h1 : pollFolder now1 files1 resp1 p = .ok r1)
    (hfail : ∀ n, is2xx (resp1 f.id n) = false)
    (hnew : f.id ∉ loadSeenIds p.seenIdsJson)
    (h2 : pollFolder now2 files2 resp2 r1.props = .ok r2)
    (hvis : f ∈ r2.queried) :
    r1.props.seenIdsJson
        = persistSeenIds (loadSeenIds p.seenIdsJson ++ r1.posted)
    ∧ f.id ∉ r1.posted
    ∧ f.id ∈ r2.attempted := by
  cases hcfg1 : loadConfig p with
  | error e =>
    unfold pollFolder at h1
    rw [hcfg1] at h1
    exact absurd h1 (by simp)
  | ok cfg1 =>
  rw [pollFolder_ok_eq now1 files1 resp1 p cfg1 hcfg1] at h1
  injection h1 with h1e
  subst h1e
  dsimp only at h2 hvis ⊢
  set seen0 := loadSeenIds p.seenIdsJson with hseen0
  set vis1 := files1.filter
    (matchesQuery cfg1.folderId (now1 - cfg1.lookbackMinutes * 60 * 1000)) with hv1
  set t1 := processFiles resp1 vis1 seen0 with ht1
  have hB : f.id ∉ t1.posted := by
    intro hmem
    have hp := processFiles_posted_success resp1 vis1 hmem
    obtain ⟨j, hj⟩ := postToIngress_true_exists hp
    rw [hfail j] at hj
    exact Bool.false_ne_true hj
  refine ⟨congrArg persistSeenIds (processFiles_seenAfter resp1 vis1 seen0),
    hB, ?_⟩
  cases hcfg2 : loadConfig
      { p with lastRunMs := some now1,
               seenIdsJson := persistSeenIds t1.seenAfter } with
  | error e =>
    unfold pollFolder at h2
    rw [hcfg2] at h2
    exact absurd h2 (by simp)
  | ok cfg2 =>
  rw [pollFolder_ok_eq _ _ _ _ cfg2 hcfg2] at h2
  injection h2 with h2e
  subst h2e
  dsimp only at hvis ⊢
  apply processFiles_attempts_file resp2 _ hvis
  intro hmem
  have hmem1 : f.id ∈ persistSeenIds t1.seenAfter :=
    mem_of_mem_loadSeenIds hmem
  have hmem2 : f.id ∈ t1.seenAfter := mem_of_mem_sliceLast500 hmem1
  rw [processFiles_seenAfter resp1 vis1 seen0] at hmem2
  rcases List.mem_append.mp hmem2 with hm | hm
  · exact hnew hm
  · exact hB hm

/-- Witness for C4: a failed first scan leaves `f1` out of the cache and a
second scan attempts it again. -/
theorem c4_cache_only_on_success_witness :
    exOutcomeFail.props.seenIdsJson
        = persistSeenIds (loadSeenIds exProps.seenIdsJson ++ exOutcomeFail.posted)
    ∧ "f1" ∉ exOutcomeFail.posted
    ∧ "f1" ∈ exOutcomeRetry.attempted := by
  have h := c4_cache_only_on_success 100 200 [exFile] [exFile]
    exRespFail exRespOk exProps exOutcomeFail exOutcomeRetry exFile
    rfl (fun _ => rfl) (by decide) rfl (by decide)
  exact h

set_option maxRecDepth 4096 in
/-- C3: across any sequence of overlapping scans in which the persist trim
never evicts (fewer than 500 ids in the raw cache at each invocation), an
identifier already in the persisted seen-ID cache is never forwarded
again, and any identifier is successfully forwarded at most once: once
forwarded it is in the cache and every later scan skips it. -/
theorem c3_forwarded_at_most_once (scans : List ScanInput) :
    ∀ (p : ScriptProps) (x : String), runBounded scans p = true →
    (x ∈ loadSeenIds p.seenIdsJson → (runPolls scans p).2.count x = 0)
    ∧ (runPolls scans p).2.count x ≤ 1 := by
  induction scans with
  | nil =>
    intro p x hb
    constructor <;> simp [runPolls]
  | cons s rest ih =>
    intro p x hb
    cases hpoll : pollFolder s.nowMs s.files s.resp p with
    | error e =>
      have hb' : runBounded rest p = true := by
        unfold runBounded at hb
        rw [hpoll] at hb
        exact hb
      have hrun : runPolls (s :: rest) p = runPolls rest p := by
        simp only [runPolls]
        rw [hpoll]
      rw [hrun]
      exact ih p x hb'
    | ok r =>
      have hb' : r.seenRaw.length ≤ 500 ∧ runBounded rest r.props = true := by
        unfold runBounded at hb
        rw [hpoll] at hb
        simpa using hb
      have hrun : runPolls (s :: rest) p
          = ((runPolls rest r.props).1,
             r.posted ++ (runPolls rest r.props).2) := by
        simp only [runPolls]
        rw [hpoll]
      rw [hrun]
      cases hcfg : loadConfig p with
      | error e =>
        unfold pollFolder at hpoll
        rw [hcfg] at hpoll
        exact absurd hpoll (by simp)
      | ok cfg =>
      rw [pollFolder_ok_eq s.nowMs s.files s.resp p cfg hcfg] at hpoll
      injection hpoll with hre
      subst hre
      dsimp only at hb' ⊢
      set seen0 := loadSeenIds p.seenIdsJson with hs0
      set vis := s.files.filter
        (matchesQuery cfg.folderId
          (s.nowMs - cfg.lookbackMinutes * 60 * 1000)) with hv
      set t := processFiles s.resp vis seen0 with ht
      have hseenAfter : t.seenAfter = seen0 ++ t.posted :=
        processFiles_seenAfter _ _ _
      have hlen : t.seenAfter.length ≤ 500 := hb'.1
      have hpersist : persistSeenIds t.seenAfter = t.seenAfter :=
        persistSeenIds_of_le hlen
      have hnextmem : ∀ y : String,
          y ∈ loadSeenIds (persistSeenIds t.seenAfter) ↔ y ∈ t.seenAfter := by
        intro y
        rw [hpersist]
        exact mem_loadSeenIds_of_le hlen
      have hIH := ih
        { p with lastRunMs := some s.nowMs,
                 seenIdsJson := persistSeenIds t.seenAfter } x hb'.2
      constructor
      · intro hx
        have hc0 : t.posted.count x = 0 :=
          processFiles_posted_count_zero s.resp vis hx
        have hxafter : x ∈ t.seenAfter := by
          rw [hseenAfter]
          exact List.mem_append_left _ hx
        have hrest := hIH.1 ((hnextmem x).mpr hxafter)
        rw [List.count_append, hc0, hrest]
      · by_cases hx0 : x ∈ seen0
        · have hc0 : t.posted.count x = 0 :=
            processFiles_posted_count_zero s.resp vis hx0
          have hxafter : x ∈ t.seenAfter := by
            rw [hseenAfter]
            exact List.mem_append_left _ hx0
          have hrest := hIH.1 ((hnextmem x).mpr hxafter)
          rw [List.count_append, hc0, hrest]
          omega
        · by_cases hxp : x ∈ t.posted
          · have hxafter : x ∈ t.seenAfter := by
              rw [hseenAfter]
              exact List.mem_append_right _ hxp
            have hrest := hIH.1 ((hnextmem x).mpr hxafter)
            have hc1 : t.posted.count x ≤ 1 :=
              processFiles_posted_count_le_one s.resp vis seen0 x
            rw [List.count_append, hrest]
            simpa using hc1
          · have hcz : t.posted.count x = 0 :=
              List.count_eq_zero_of_not_mem hxp
            rw [List.count_append, hcz]
            simpa using hIH.2

/-- Witness for C3 on a concrete overlapping-scan run. -/
theorem c3_forwarded_at_most_once_witness :
    (runPolls exScans exPropsSeen).2.count "g" = 0
    ∧ (runPolls exScans exPropsSeen).2.count "g" ≤ 1 := by
  have h := c3_forwarded_at_most_once exScans exPropsSeen "g" (by decide)
  exact ⟨h.1 (by decide), h.2⟩

/-! ## Claim theorems: Ledger Writer -/

theorem renderedRows_hashPresent (o : WriterOutcome) (rows : List LedgerRow)
    (h : o.nItems ≠ 0) :
    hashPresent (rows ++ renderedRows o) o.image_hash = true := by
  unfold hashPresent renderedRows
  rw [List.any_eq_true]
  refine ⟨⟨o.image_hash, o.total, o.status⟩, ?_, by simp⟩
  exact List.mem_append_right _ (List.mem_replicate.mpr ⟨h, rfl⟩)

/-- C2: delivering the exact same Validation Outcome to the Ledger Writer
again is a no-op: the writer appends only if no row bearing the outcome's
content identity exists in the ledger, so the repeated delivery leaves the
ledger — in particular the row count for that content identity —
unchanged. -/
theorem c2_idempotent_append (o : WriterOutcome) (L : Ledger) :
    writeOutcome o (writeOutcome o L) = writeOutcome o L
    ∧ (writeOutcome o (writeOutcome o L)).rows.countP
          (fun r => decide (r.image_hash = o.image_hash))
      = (writeOutcome o L).rows.countP
          (fun r => decide (r.image_hash = o.image_hash)) := by
  have hidem : writeOutcome o (writeOutcome o L) = writeOutcome o L := by
    by_cases hp : hashPresent L.rows o.image_hash = true
    · have h1 : writeOutcome o L = L := by
        unfold writeOutcome
        rw [if_pos hp]
      rw [h1]
      exact h1
    · cases hn : o.nItems with
      | zero =>
        have hrr : renderedRows o = [] := by
          unfold renderedRows
          rw [hn]
          rfl
        simp [writeOutcome, hrr, hp]
      | succ m =>
        have hp2 : hashPresent (L.rows ++ renderedRows o) o.image_hash = true :=
          renderedRows_hashPresent o L.rows (by omega)
        have h1 : writeOutcome o L =
            ⟨L.rows ++ renderedRows o,
             footerFormula (L.rows ++ renderedRows o)⟩ := by
          unfold writeOutcome
          rw [if_neg hp]
        rw [h1]
        simp [writeOutcome, hp2]
  exact ⟨hidem, by rw [hidem]⟩

/-! ## Claim theorems: Validator reconciliation -/

/-- C9: on a record whose items sum is within the configured epsilon of the
reported total the reconciliation outcome has status OK; beyond epsilon it
has status NEEDS_REVIEW with a note referencing the mismatch; in both
cases the rows are rendered (one per line item) — the mismatch never
blocks the write. -/
theorem c9_reconciliation (eps : ℚ) (r : RawRecord) :
    (|sumLineTotals r - r.total| ≤ eps →
        (reconcile eps r).status = RowStatus.ok)
    ∧ (eps < |sumLineTotals r - r.total| →
        (reconcile eps r).status = RowStatus.needsReview
        ∧ mismatchNote ∈ (reconcile eps r).notes)
    ∧ (reconcile eps r).rows.length = r.items.length := by
  unfold reconcile
  by_cases h : |sumLineTotals r - r.total| ≤ eps
  · simp [h]
  · simp [h]


/-- Witness for C9: the mismatching record is flagged for review with the
mismatch note, and its row is still rendered. -/
theorem c9_reconciliation_witness :
    ((reconcile (5/100) exRecord).status = RowStatus.needsReview
      ∧ mismatchNote ∈ (reconcile (5/100) exRecord).notes)
    ∧ (reconcile (5/100) exRecord).rows.length = exRecord.items.length := by
  have h := c9_reconciliation (5/100) exRecord
  refine ⟨h.2.1 ?_, h.2.2⟩
  norm_num [sumLineTotals, exRecord]

/-! ## Lemmas for the aggregate invariant -/

theorem dedupFirst_replicate_append {α : Type} [DecidableEq α]
    (x : α) (ys : List α) (n : Nat) :
    dedupFirst (List.replicate (n + 1) x ++ ys)
      = x :: (dedupFirst ys).filter (fun b => b ≠ x) := by
  induction n with
  | zero => rfl
  | succ m ih =>
    rw [List.replicate_succ, List.cons_append, dedupFirst_cons, ih]
    simp [List.filter_filter]

theorem blocksRows_hash_mem {bs : List WriterOutcome} {r : LedgerRow}
    (h : r ∈ blocksRows bs) :
    r.image_hash ∈ bs.map (fun b => b.image_hash) := by
  unfold blocksRows at h
  rw [List.mem_flatten] at h
  obtain ⟨l, hl, hr⟩ := h
  rw [List.mem_map] at hl
  obtain ⟨b, hb, hbl⟩ := hl
  rw [← hbl] at hr
  unfold renderedRows at hr
  have he := List.eq_of_mem_replicate hr
  rw [he]
  exact List.mem_map.mpr ⟨b, hb, rfl⟩

theorem blocksRows_mem_of_block {bs : List WriterOutcome} {b : WriterOutcome}
    (hb : b ∈ bs) (hn : 1 ≤ b.nItems) :
    (⟨b.image_hash, b.total, b.status⟩ : LedgerRow) ∈ blocksRows bs := by
  unfold blocksRows
  rw [List.mem_flatten]
  refine ⟨renderedRows b, List.mem_map.mpr ⟨b, hb, rfl⟩, ?_⟩
  unfold renderedRows
  exact List.mem_replicate.mpr ⟨by omega, rfl⟩

theorem hashPresent_iff {rows : List LedgerRow} {h : String} :
    hashPresent rows h = true ↔ ∃ r ∈ rows, r.image_hash = h := by
  unfold hashPresent
  rw [List.any_eq_true]
  simp

theorem goodBlocks_cons {b : WriterOutcome} {bs : List WriterOutcome}
    (h : GoodBlocks (b :: bs)) :
    GoodBlocks bs ∧ b.image_hash ∉ bs.map (fun c => c.image_hash)
    ∧ 1 ≤ b.nItems ∧ b.image_hash ≠ "" := by
  obtain ⟨hnd, hall⟩ := h
  rw [List.map_cons, List.nodup_cons] at hnd
  refine ⟨⟨hnd.2, fun c hc => hall c (List.mem_cons_of_mem _ hc)⟩, hnd.1,
    (hall b (List.mem_cons_self _ _)).1, (hall b (List.mem_cons_self _ _)).2⟩

theorem footerFormula_def (rows : List LedgerRow) :
    footerFormula rows
      = (((dedupFirst ((rows.filter
            (fun r => !decide (r.status = RowStatus.needsReview))).map
            (fun r => (r.image_hash, r.total)))).filter
          (fun q => !decide (q.1 = ""))).map Prod.snd).sum := rfl

theorem footerFormula_blocks : ∀ bs : List WriterOutcome, GoodBlocks bs →
    footerFormula (blocksRows bs) = blocksSum bs := by
  intro bs
  induction bs with
  | nil => intro _; rfl
  | cons b bs ih =>
    intro hg
    obtain ⟨hgb, hnotin, hn, hne⟩ := goodBlocks_cons hg
    have hrows : blocksRows (b :: bs) = renderedRows b ++ blocksRows bs := by
      unfold blocksRows
      rw [List.map_cons, List.flatten_cons]
    have hsum : blocksSum (b :: bs)
        = (if b.status = RowStatus.ok then b.total else 0) + blocksSum bs := by
      unfold blocksSum
      rw [List.map_cons, List.sum_cons]
    rw [hrows, footerFormula_def, hsum, List.filter_append, List.map_append]
    unfold renderedRows
    cases hst : b.status with
    | needsReview =>
      rw [List.filter_replicate, if_neg (by simp), List.map_nil,
        List.nil_append, ← footerFormula_def, ih hgb]
      simp
    | ok =>
      rw [List.filter_replicate, if_pos (by simp), List.map_replicate]
      obtain ⟨m, hm⟩ : ∃ m, b.nItems = m + 1 := ⟨b.nItems - 1, by omega⟩
      rw [hm]
      dsimp only
      rw [dedupFirst_replicate_append]
      have hid : (dedupFirst (((blocksRows bs).filter
            (fun r => !decide (r.status = RowStatus.needsReview))).map
            (fun r => (r.image_hash, r.total)))).filter
            (fun q => q ≠ (b.image_hash, b.total))
          = dedupFirst (((blocksRows bs).filter
            (fun r => !decide (r.status = RowStatus.needsReview))).map
            (fun r => (r.image_hash, r.total))) := by
        apply List.filter_eq_self.mpr
        intro q hq
        have hq' := (mem_dedupFirst q _).mp hq
        rw [List.mem_map] at hq'
        obtain ⟨r, hrmem, hqe⟩ := hq'
        have hr2 : r ∈ blocksRows bs := (List.mem_filter.mp hrmem).1
        have hmem := blocksRows_hash_mem hr2
        rw [← hqe]
        simp only [ne_eq, decide_eq_true_eq, Prod.mk.injEq, not_and]
        intro he _
        rw [he] at hmem
        exact absurd hmem hnotin
      rw [hid, List.filter_cons, if_pos (by simp [hne]), List.map_cons,
        List.sum_cons, ← footerFormula_def, ih hgb]
      simp

theorem distinctOkAggregate_def (rows : List LedgerRow) :
    distinctOkAggregate rows
      = ((dedupFirst ((rows.filter
            (fun r => decide (r.status = RowStatus.ok))).map
            (fun r => r.image_hash))).map
          (fun h =>
            (((rows.filter (fun r => decide (r.status = RowStatus.ok))).find?
                (fun r => decide (r.image_hash = h))).map
              (fun r => r.total)).getD 0)).sum := rfl

theorem distinctOkAggregate_blocks : ∀ bs : List WriterOutcome,
    GoodBlocks bs → distinctOkAggregate (blocksRows bs) = blocksSum bs := by
  intro bs
  induction bs with
  | nil => intro _; rfl
  | cons b bs ih =>
    intro hg
    obtain ⟨hgb, hnotin, hn, hne⟩ := goodBlocks_cons hg
    have hrows : blocksRows (b :: bs) = renderedRows b ++ blocksRows bs := by
      unfold blocksRows
      rw [List.map_cons, List.flatten_cons]
    have hsum : blocksSum (b :: bs)
        = (if b.status = RowStatus.ok then b.total else 0) + blocksSum bs := by
      unfold blocksSum
      rw [List.map_cons, List.sum_cons]
    rw [hrows, distinctOkAggregate_def, hsum, List.filter_append]
    unfold renderedRows
    cases hst : b.status with
    | needsReview =>
      rw [List.filter_replicate, if_neg (by simp), List.nil_append,
        ← distinctOkAggregate_def, ih hgb]
      simp
    | ok =>
      rw [List.filter_replicate, if_pos (by simp)]
      obtain ⟨m, hm⟩ : ∃ m, b.nItems = m + 1 := ⟨b.nItems - 1, by omega⟩
      rw [hm, List.map_append, List.map_replicate]
      dsimp only
      rw [dedupFirst_replicate_append]
      have hrestmem : ∀ h' : String,
          h' ∈ ((blocksRows bs).filter
            (fun r => decide (r.status = RowStatus.ok))).map
            (fun r => r.image_hash) →
          h' ∈ bs.map (fun c => c.image_hash) := by
        intro h' hmem
        rw [List.mem_map] at hmem
        obtain ⟨r, hrmem, hqe⟩ := hmem
        have hr2 : r ∈ blocksRows bs := (List.mem_filter.mp hrmem).1
        rw [← hqe]
        exact blocksRows_hash_mem hr2
      have hid : (dedupFirst (((blocksRows bs).filter
            (fun r => decide (r.status = RowStatus.ok))).map
            (fun r => r.image_hash))).filter (fun c => c ≠ b.image_hash)
          = dedupFirst (((blocksRows bs).filter
            (fun r => decide (r.status = RowStatus.ok))).map
            (fun r => r.image_hash)) := by
        apply List.filter_eq_self.mpr
        intro q hq
        have hq' := (mem_dedupFirst q _).mp hq
        have hq2 := hrestmem q hq'
        simp only [ne_eq, decide_eq_true_eq]
        intro he
        rw [he] at hq2
        exact absurd hq2 hnotin
      rw [hid, List.map_cons, List.sum_cons]
      have hhead : ((((List.replicate (m + 1)
              (⟨b.image_hash, b.total, RowStatus.ok⟩ : LedgerRow)
            ++ (blocksRows bs).filter
              (fun r => decide (r.status = RowStatus.ok))).find?
              (fun r => decide (r.image_hash = b.image_hash))).map
            (fun r => r.total)).getD 0) = b.total := by
        rw [List.find?_append, List.find?_replicate]
        simp
      rw [hhead]
      have htail : ∀ h' ∈ dedupFirst (((blocksRows bs).filter
            (fun r => decide (r.status = RowStatus.ok))).map
            (fun r => r.image_hash)),
          ((((List.replicate (m + 1)
                (⟨b.image_hash, b.total, RowStatus.ok⟩ : LedgerRow)
              ++ (blocksRows bs).filter
                (fun r => decide (r.status = RowStatus.ok))).find?
                (fun r => decide (r.image_hash = h'))).map
              (fun r => r.total)).getD 0)
            = ((((blocksRows bs).filter
                (fun r => decide (r.status = RowStatus.ok))).find?
                (fun r => decide (r.image_hash = h'))).map
              (fun r => r.total)).getD 0 := by
        intro h' hq
        have hq' := (mem_dedupFirst h' _).mp hq
        have hq2 := hrestmem h' hq'
        have hneq : b.image_hash ≠ h' := by
          intro he
          rw [← he] at hq2
          exact absurd hq2 hnotin
        rw [List.find?_append, List.find?_replicate]
        simp [hneq]
      rw [List.map_congr_left htail, ← distinctOkAggregate_def, ih hgb]
      simp

theorem foldWrite_blocks : ∀ (os : List WriterOutcome) (L : Ledger)
    (bs : List WriterOutcome), GoodBlocks bs → L.rows = blocksRows bs →
    L.aggregate = footerFormula L.rows → (∀ o ∈ os, o.image_hash ≠ "") →
    ∃ bs', GoodBlocks bs'
      ∧ (os.foldl (fun M o => writeOutcome o M) L).rows = blocksRows bs'
      ∧ (os.foldl (fun M o => writeOutcome o M) L).aggregate
          = footerFormula (os.foldl (fun M o => writeOutcome o M) L).rows := by
  intro os
  induction os with
  | nil =>
    intro L bs hg hr ha _
    exact ⟨bs, hg, hr, ha⟩
  | cons o os ih =>
    intro L bs hg hr ha hne
    have hneo : o.image_hash ≠ "" := hne o (List.mem_cons_self _ _)
    have hnetail : ∀ x ∈ os, x.image_hash ≠ "" :=
      fun x hx => hne x (List.mem_cons_of_mem _ hx)
    rw [List.foldl_cons]
    by_cases hp : hashPresent L.rows o.image_hash = true
    · have hW : writeOutcome o L = L := by
        unfold writeOutcome
        rw [if_pos hp]
      rw [hW]
      exact ih L bs hg hr ha hnetail
    · have hW : writeOutcome o L =
          ⟨L.rows ++ renderedRows o,
           footerFormula (L.rows ++ renderedRows o)⟩ := by
        unfold writeOutcome
        rw [if_neg hp]
      cases hn : o.nItems with
      | zero =>
        have hrr : renderedRows o = [] := by
          unfold renderedRows
          rw [hn]
          rfl
        rw [hW, hrr]
        exact ih _ bs hg (by simp [hr]) (by simp) hnetail
      | succ m =>
        rw [hW]
        apply ih _ (bs ++ [o]) ?_ ?_ rfl hnetail
        · constructor
          · rw [List.map_append]
            apply List.Nodup.append hg.1 (List.nodup_singleton _)
            intro a ha1 ha2
            simp only [List.map_singleton, List.mem_singleton] at ha2
            rw [ha2] at ha1
            rw [List.mem_map] at ha1
            obtain ⟨c, hc, hch⟩ := ha1
            have hcn : 1 ≤ c.nItems := (hg.2 c hc).1
            have hrow := blocksRows_mem_of_block hc hcn
            rw [← hr] at hrow
            apply hp
            rw [hashPresent_iff]
            exact ⟨_, hrow, hch⟩
          · intro c hc
            rcases List.mem_append.mp hc with hcl | hcr
            · exact hg.2 c hcl
            · rw [List.mem_singleton] at hcr
              rw [hcr]
              exact ⟨by omega, hneo⟩
        · show L.rows ++ renderedRows o = blocksRows (bs ++ [o])
          unfold blocksRows
          rw [List.map_append, List.flatten_append, hr]
          unfold blocksRows
          simp

/-- C1: for every monthly ledger reached from a fresh ledger by any
sequence of Validation Outcome deliveries (duplicate deliveries included),
the aggregate row's value — maintained by the README's `MONTH TOTAL`
formula over unique `(image_hash, total)` pairs of non-review rows —
equals the sum of `total` over the distinct content identities present
with status OK; NEEDS_REVIEW rows are excluded. -/
theorem c1_aggregate_invariant (os : List WriterOutcome)
    (hne : ∀ o ∈ os, o.image_hash ≠ "") :
    (applyOutcomes os).aggregate
      = distinctOkAggregate (applyOutcomes os).rows := by
  obtain ⟨bs, hg, hrows, hagg⟩ := foldWrite_blocks os emptyLedger []
    ⟨List.nodup_nil, by simp⟩ rfl rfl hne
  unfold applyOutcomes
  rw [hagg, hrows, footerFormula_blocks bs hg, distinctOkAggregate_blocks bs hg]

/-- Witness for C1: a duplicate delivery of `h1` (total 23, OK, two line
items) and a review-flagged `h2` yield aggregate 23 on both formulas. -/
theorem c1_aggregate_invariant_witness :
    (applyOutcomes exOutcomes).aggregate
      = distinctOkAggregate (applyOutcomes exOutcomes).rows :=
  c1_aggregate_invariant exOutcomes (by decide)

end ReceiptTracker
